import Mathlib

/-!
Verification development for the `algae` one-shot algebraic-effects runtime.

The repository ships the proc-macro crate (`algae-macros/src/lib.rs`) and the
examples/tests of the core runtime crate; the core runtime itself
(`algae/src/lib.rs`: `Reply`, `Effect`, `Effectful`, handlers, chains,
`run`/`run_checked`) is not present, so its data model and operations are
modelled from the specification (each such definition is marked
`Modelled from the spec:`).  The proc-macro crate is embedded from its source.
-/

namespace Algae

/-! ## Type-erased response values

Modelled from the spec: handler responses cross the suspension boundary
type-erased (`Box<dyn Any + Send>` in the source interface); the Reply cell
carries an explicit type witness so mismatches are an explicit error value.
We model the erased value universe as a small closed inductive whose
constructors stand for Rust response types, with `tyName` as the type witness
(Rust's `type_name`/`TypeId`). -/

inductive Val where
  | vInt : Int → Val
  | vStr : String → Val
  | vUnit : Val
  | vBool : Bool → Val
deriving DecidableEq, Repr

def Val.tyName : Val → String
  | .vInt _ => "i32"
  | .vStr _ => "alloc::string::String"
  | .vUnit => "()"
  | .vBool _ => "bool"

/-! ## Reply errors -/

/-- Modelled from the spec: the error taxonomy of the Reply protocol
(`DoubleFill` / `NotFilled` / `DoubleTake` / `TypeMismatch{expected, actual}`). -/
inductive ReplyError where
  | doubleFill
  | notFilled
  | doubleTake
  | typeMismatch (expected : String) (actual : String)
deriving DecidableEq, Repr

/-- Modelled from the spec: the diagnostic message of a Reply error; for a
type mismatch it names both the expected and the actual type. -/
def ReplyError.message : ReplyError → String
  | .doubleFill => "Reply already filled (DoubleFill)"
  | .notFilled => "Reply not yet filled (NotFilled)"
  | .doubleTake => "Reply already taken (DoubleTake)"
  | .typeMismatch e a => "type mismatch in Reply::take: expected " ++ e ++ ", got " ++ a

/-! ## Reply cell

Modelled from the spec: a write-once, read-once typed container crossing the
suspension boundary.  States: empty → filled → taken (permanently exhausted). -/

inductive Reply where
  | empty
  | filled (v : Val)
  | taken
deriving DecidableEq, Repr

/-- Modelled from the spec: `new()` → empty cell. -/
def Reply.new : Reply := .empty

/-- Modelled from the spec: `fill(value, type tag)` fails with `DoubleFill` if
already filled (a taken cell was filled before and is permanently exhausted);
it never silently overwrites. -/
def Reply.fill : Reply → Val → Except ReplyError Reply
  | .empty, v => .ok (.filled v)
  | .filled _, _ => .error .doubleFill
  | .taken, _ => .error .doubleFill

/-- Modelled from the spec: `take<T>()` fails with `NotFilled` if empty, with
`TypeMismatch{expected, actual}` if the stored type tag does not match, with
`DoubleTake` if already taken; otherwise removes and returns the value,
leaving the cell permanently exhausted.  The expected Rust type `T` is
represented by its type name. -/
def Reply.take (expected : String) : Reply → Except ReplyError (Val × Reply)
  | .empty => .error .notFilled
  | .taken => .error .doubleTake
  | .filled v =>
      if v.tyName = expected then .ok (v, .taken)
      else .error (.typeMismatch expected v.tyName)

/-! ## Effect envelope -/

/-- Modelled from the spec: an Effect owns exactly one Op and exactly one
Reply. -/
structure Effect (α : Type) where
  op : α
  reply : Reply
deriving DecidableEq, Repr

/-- Modelled from the spec: `new(op)` creates an envelope with an empty
Reply. -/
def Effect.new {α : Type} (op : α) : Effect α := ⟨op, Reply.new⟩

/-! ## Handlers and chains

Modelled from the spec: a `PartialHandler`, given an Op, produces
`Some(response)` or declines with `None`; a (total) `Handler` unconditionally
produces a response and is usable as a PartialHandler that always returns
`Some`.  Handler invocations are observed through the engine's query/accept
trace rather than through internal handler state. -/

abbrev PHandler (α : Type) : Type := α → Option Val

/-- Modelled from the spec: any Handler is usable as a PartialHandler that
always returns `Some`. -/
def totalize {α : Type} (h : α → Val) : PHandler α := fun op => some (h op)

/-- Modelled from the spec: a handler chain / `VecHandler` is an ordered flat
sequence of PartialHandlers; order is dispatch priority. -/
abbrev VecHandler (α : Type) : Type := List (PHandler α)

/-- Modelled from the spec: `begin_chain()` starts an empty chain. -/
def beginChain (α : Type) : VecHandler α := []

/-- Modelled from the spec: `handle(partial_handler)` / `push` appends one
PartialHandler to the chain. -/
def VecHandler.push {α : Type} (c : VecHandler α) (h : PHandler α) : VecHandler α :=
  c ++ [h]

/-- Modelled from the spec: pushing a chain (or a whole `VecHandler`) into a
chain flattens its contents in order rather than nesting; this is also the
`handle_all` operation, which appends many handlers preserving iteration
order. -/
def VecHandler.pushAll {α : Type} (c : VecHandler α) (hs : VecHandler α) : VecHandler α :=
  c ++ hs

/-- Dispatch of one Op over the handlers of a chain starting at index `i`,
also returning the indices of the handlers queried, in query order.
Modelled from the spec: iterate the flat sequence in insertion order; the
first handler returning `Some` wins; if the iteration exhausts with no
acceptance, dispatch fails (`none`). -/
def dispatchFrom {α : Type} (i : Nat) : VecHandler α → α → Option Val × List Nat
  | [], _ => (none, [])
  | h :: rest, op =>
      match h op with
      | some v => (some v, [i])
      | none =>
          let r := dispatchFrom (i + 1) rest op
          (r.1, i :: r.2)

/-- Modelled from the spec: dispatch one Op over a chain, first-match-wins,
returning the winning response (or `none` for unhandled) and the list of
queried handler indices. -/
def dispatch {α : Type} (c : VecHandler α) (op : α) : Option Val × List Nat :=
  dispatchFrom 0 c op

/-! ## Effectful computations

Modelled from the spec: a suspendable computation is a driveable state
machine producing either `Suspended(effect)` or `Completed(result)`; we embed
it as a tree with one node per suspension point.  A `perform` node records
the Op to be yielded, the Rust type name expected by the call site's
`take::<T>()`, and the continuation resumed with the type-erased response. -/

inductive Effectful (α : Type) (R : Type) where
  | completed (r : R)
  | perform (op : α) (expected : String) (k : Val → Effectful α R)

/-- Modelled from the spec: the sequencing primitive (`bind`/andThen): run the
first computation to completion, extract its result, and start the second. -/
def Effectful.bind {α R S : Type} : Effectful α R → (R → Effectful α S) → Effectful α S
  | .completed r, f => f r
  | .perform op expected k, f => .perform op expected (fun v => (k v).bind f)

/-! ## Execution engine -/

/-- Modelled from the spec: outcome of the core drive loop — a final result,
an unhandled operation (recoverable), or a fatal Reply-protocol violation. -/
inductive RunOutcome (α : Type) (R : Type) where
  | ok (r : R)
  | unhandledOp (op : α)
  | fatal (e : ReplyError)
deriving DecidableEq, Repr

/-- Observable trace of one engine run: the Op attempted (dispatched) at each
loop iteration in order, the handler query events `(handler index, op)` in
order, and the number of loop iterations. -/
structure RunTrace (α : Type) where
  attempts : List α
  queries : List (Nat × α)
  iters : Nat
deriving DecidableEq, Repr

/-- Modelled from the spec: the core engine loop shared by both entry points —
drive; on `Completed(result)` return it; on `Suspended(effect)` dispatch the
effect's op over the chain (failure → `Unhandled(op)`), fill the effect's
Reply with the winning response, resume the computation with the value taken
from the filled Reply (a take failure, e.g. type mismatch, is fatal), and
loop.  Instrumented to also return the run's observable trace. -/
def runCore {α R : Type} (c : VecHandler α) :
    Effectful α R → RunOutcome α R × RunTrace α
  | .completed r => (.ok r, ⟨[], [], 0⟩)
  | .perform op expected k =>
      let e := Effect.new op
      let d := dispatch c op
      let qs := d.2.map (fun i => (i, op))
      match d.1 with
      | none => (.unhandledOp op, ⟨[op], qs, 1⟩)
      | some v =>
          match e.reply.fill v with
          | .error err => (.fatal err, ⟨[op], qs, 1⟩)
          | .ok filledReply =>
              match filledReply.take expected with
              | .error err => (.fatal err, ⟨[op], qs, 1⟩)
              | .ok (v', _) =>
                  let rest := runCore c (k v')
                  (rest.1, ⟨op :: rest.2.attempts, qs ++ rest.2.queries, rest.2.iters + 1⟩)

/-- Modelled from the spec: the fatal failures of the engine — panics. -/
inductive Panic (α : Type) where
  | unhandledPanic (op : α)
  | replyPanic (e : ReplyError)
deriving DecidableEq, Repr

/-- Modelled from the spec: the error value returned by `run_checked()`,
exposing the undispatched Op. -/
structure UnhandledOp (α : Type) where
  op : α
deriving DecidableEq, Repr

/-- Modelled from the spec: `run()` drives to completion; on `Unhandled` or
any Reply error it panics (modelled as the `.error` branch of the outer
`Except`). -/
def run {α R : Type} (c : VecHandler α) (m : Effectful α R) : Except (Panic α) R :=
  match (runCore c m).1 with
  | .ok r => .ok r
  | .unhandledOp op => .error (.unhandledPanic op)
  | .fatal e => .error (.replyPanic e)

/-- Modelled from the spec: `run_checked()` drives to completion; it converts
`Unhandled(op)` into a returned error value carrying the undispatched Op,
preserving the result type otherwise; Reply-protocol violations remain fatal
(outer `.error`, a panic) even here. -/
def runChecked {α R : Type} (c : VecHandler α) (m : Effectful α R) :
    Except (Panic α) (Except (UnhandledOp α) R) :=
  match (runCore c m).1 with
  | .ok r => .ok (.ok r)
  | .unhandledOp op => .ok (.error ⟨op⟩)
  | .fatal e => .error (.replyPanic e)

/-- Reference denotation of a computation against a total handler `h`: the
sequence of ops the computation performs, in program order, when every op is
answered by `h`.  This is the handler-independent notion of "the N operations
the computation performs" used to state exactly-once dispatch. -/
def denoteOps {α R : Type} (h : α → Val) : Effectful α R → List α
  | .completed _ => []
  | .perform op _ k => op :: denoteOps h (k (h op))

/-! ## Concrete fixtures mirroring the repository's examples

A small operation vocabulary in the style of the examples
(`Console::Print`, `Console::ReadLine`, `Math::Add`), with partial handlers
mirroring `StdoutHandler`, `CalculatorHandler` and `InterceptorHandler` from
`examples/partial_handlers.rs`. -/

inductive COp where
  | print (s : String)
  | readLine
  | add (a b : Int)
deriving DecidableEq, Repr

/-- Mirrors `StdoutHandler`: accepts only console print operations. -/
def stdoutH : PHandler COp := fun op =>
  match op with
  | .print _ => some .vUnit
  | _ => none

/-- Mirrors `CalculatorHandler`: accepts only math operations, computing the
real sum. -/
def calcH : PHandler COp := fun op =>
  match op with
  | .add a b => some (.vInt (a + b))
  | _ => none

/-- Mirrors `InterceptorHandler`: intercepts all math operations and returns
42. -/
def interceptH : PHandler COp := fun op =>
  match op with
  | .add _ _ => some (.vInt 42)
  | _ => none

/-- A total handler answering every operation (mock console plus
calculator). -/
def consoleTotal : COp → Val := fun op =>
  match op with
  | .print _ => .vUnit
  | .readLine => .vStr "Alice"
  | .add a b => .vInt (a + b)

/-- Mirrors `BadHandler` from `examples/test_error_messages.rs`: answers a
math operation with a string where an `i32` is expected. -/
def badTotal : COp → Val := fun op =>
  match op with
  | .print _ => .vUnit
  | .readLine => .vStr "Alice"
  | .add _ _ => .vStr "42"

def valToInt : Val → Int := fun v =>
  match v with
  | .vInt n => n
  | _ => 0

/-- A computation performing a console print and then a math add, in the
style of `calculator_program` in `examples/partial_handlers.rs`. -/
def progPrintAdd : Effectful COp Int :=
  .perform (.print "start") "()" (fun _ =>
    .perform (.add 2 3) "i32" (fun v => .completed (valToInt v)))

/-- A computation performing a single math add, used as a `bind`
continuation. -/
def contAddSelf (r : Int) : Effectful COp Int :=
  .perform (.add r r) "i32" (fun v => .completed (valToInt v))

end Algae

namespace AlgaeMacros

/-!
Embedding of `algae-macros/src/lib.rs` (present in the repository).

Rust `Ident`s and `Type`s are represented by their token strings; a
`TokenStream` by a list of token strings.
-/

/-- One operation line of the `effect!` grammar:
`Family::Variant (Payload?) -> Ret` (from `struct OpLine`). -/
structure OpLine where
  family : String
  variant : String
  payload : Option String
  ret : String
deriving DecidableEq, Repr

/-- From `struct VariantInfo` in `effect`: the variant name and its optional
payload type. -/
structure VariantInfo where
  variant : String
  payload : Option String
deriving DecidableEq, Repr

/-- One step of `families.entry(l.family.to_string()).or_insert_with(..)` and
`entry.1.push(..)` where `families : BTreeMap<String, _>`: the map is embedded
as an association list sorted strictly ascending by key, so inserting places
a new family at its ordered position and appends the variant to an existing
family's vector. -/
def insertLine (fam : String) (v : VariantInfo) :
    List (String × List VariantInfo) → List (String × List VariantInfo)
  | [] => [(fam, [v])]
  | (f, vs) :: rest =>
      if fam = f then (f, vs ++ [v]) :: rest
      else if fam < f then (fam, [v]) :: (f, vs) :: rest
      else (f, vs) :: insertLine fam v rest

/-- The grouping loop `for l in lines { families.entry(..).push(..) }` of
`effect`, yielding the `BTreeMap` contents in its iteration order
(ascending by family-name key). -/
def groupFamilies (lines : List OpLine) : List (String × List VariantInfo) :=
  lines.foldl (fun acc l => insertLine l.family ⟨l.variant, l.payload⟩ acc) []

/-- Association-list lookup over the grouped families (by family name). -/
def lookupFam : List (String × List VariantInfo) → String → Option (List VariantInfo)
  | [], _ => none
  | (f, vs) :: rest, g => if g = f then some vs else lookupFam rest g

/-- A generated `Default` implementation choice: which family, which variant,
and whether the variant is built with a `Default::default()` payload
(`true` exactly when the variant has a payload type). -/
structure DefaultChoice where
  family : String
  variant : String
  payloadIsDefault : Bool
deriving DecidableEq, Repr

/-- The root enum's generated `Default` impl in `effect`: taken from
`first_family = families.values().next()` (first entry in `BTreeMap`
iteration order) and `variants.first()`; `none` when there are no lines
(the source emits no impl then). -/
def rootDefault (lines : List OpLine) : Option DefaultChoice :=
  match (groupFamilies lines).head? with
  | none => none
  | some (fam, vs) =>
      match vs.head? with
      | none => none
      | some v0 => some ⟨fam, v0.variant, v0.payload.isSome⟩

/-- The `Default` impl `effect` generates for family `fam` (from
`variants.first()` of that family's grouped vector); `none` when the family
does not occur. -/
def familyDefault (lines : List OpLine) (fam : String) : Option DefaultChoice :=
  match lookupFam (groupFamilies lines) fam with
  | none => none
  | some vs => vs.head?.map (fun v0 => ⟨fam, v0.variant, v0.payload.isSome⟩)

/-- Reference notion of declaration order: the variants of family `fam` in
the order their lines were written. -/
def declVariants (lines : List OpLine) (fam : String) : List VariantInfo :=
  (lines.filter (fun l => l.family = fam)).map (fun l => ⟨l.variant, l.payload⟩)

/-- Reference notion: the family names in declaration order (with
repetitions). -/
def declFamilies (lines : List OpLine) : List String :=
  lines.map (fun l => l.family)

/-- A Rust function item as the `effectful` attribute macro sees it: its
name, its declared return type (`none` for the default `()` return), and its
body (an opaque token string). -/
structure RustFn where
  name : String
  ret : Option String
  body : String
deriving DecidableEq, Repr

/-- From `pub fn effectful(_: TokenStream, item: TokenStream)`: the attribute
argument stream is bound to `_` and never read; the return type `T` is
rewritten to `algae::Effectful<T, Op>` (with `()` for a missing return type)
and the body is wrapped in `algae::Effectful::new(#[coroutine] move
|mut _reply: Option<algae::Reply>| \x7b body \x7d)`. -/
def effectfulTransform (_attrArgs : List String) (f : RustFn) : RustFn :=
  let innerType :=
    match f.ret with
    | none => "()"
    | some ty => ty
  { f with
    ret := some ("algae::Effectful<" ++ innerType ++ ", Op>"),
    body := "algae::Effectful::new(#[coroutine] move |mut _reply: Option<algae::Reply>| \x7b "
      ++ f.body ++ " \x7d)" }

end AlgaeMacros

namespace Algae

/-! ## Theorems -/

/-- Helper: first-match dispatch starting at index `i`, with the query log as
the contiguous index range up to the first acceptor. -/
theorem dispatchFrom_first_match {α : Type} (v : Val) (op : α) :
    ∀ (c : VecHandler α) (i k : Nat) (hk : k < c.length),
      c.get ⟨k, hk⟩ op = some v →
      (∀ j (hj : j < k), c.get ⟨j, Nat.lt_trans hj hk⟩ op = none) →
      dispatchFrom i c op = (some v, List.range' i (k + 1))
  | [], _, k, hk => by simp at hk
  | h :: rest, i, 0, hk => by
      intro hacc _
      simp only [List.get] at hacc
      simp [dispatchFrom, hacc, List.range']
  | h :: rest, i, k + 1, hk => by
      intro hacc hdecl
      have h0 : h op = none := hdecl 0 (Nat.succ_pos k)
      have hk' : k < rest.length := Nat.lt_of_succ_lt_succ hk
      have hacc' : rest.get ⟨k, hk'⟩ op = some v := hacc
      have hdecl' : ∀ j (hj : j < k), rest.get ⟨j, Nat.lt_trans hj hk'⟩ op = none := by
        intro j hj
        exact hdecl (j + 1) (Nat.succ_lt_succ hj)
      have ih := dispatchFrom_first_match v op rest (i + 1) k hk' hacc' hdecl'
      simp [dispatchFrom, h0, ih, List.range'_succ]

/-- C2: first-match-wins chain dispatch — for every chain and every Op, if
the handler at position `k` accepts the Op and every earlier handler
declines, dispatch queries exactly the handlers at positions `0..k` in
insertion order, uses handler `k`'s response, and never invokes any handler
after position `k` for that Op. -/
theorem first_match_wins {α : Type} (c : VecHandler α) (op : α) (v : Val)
    (k : Nat) (hk : k < c.length)
    (hacc : c.get ⟨k, hk⟩ op = some v)
    (hdecl : ∀ j (hj : j < k), c.get ⟨j, Nat.lt_trans hj hk⟩ op = none) :
    dispatch c op = (some v, List.range (k + 1)) ∧
    ∀ j ∈ (dispatch c op).2, j ≤ k := by
  have hmain : dispatch c op = (some v, List.range (k + 1)) := by
    have := dispatchFrom_first_match v op c 0 k hk hacc hdecl
    rw [dispatch, this, List.range_eq_range']
  refine ⟨hmain, ?_⟩
  intro j hj
  rw [hmain] at hj
  simp only [List.mem_range] at hj
  omega

/-- C2 witness: with the chain `[stdoutH, interceptH, calcH]` (mirroring
example 5 of `examples/partial_handlers.rs`), the math op `Add(2,3)` is
declined by `stdoutH`, accepted by `interceptH` with response 42, and `calcH`
is never queried. -/
theorem first_match_wins_witness :
    dispatch [stdoutH, interceptH, calcH] (COp.add 2 3)
      = (some (Val.vInt 42), List.range (1 + 1)) ∧
    ∀ j ∈ (dispatch [stdoutH, interceptH, calcH] (COp.add 2 3)).2, j ≤ 1 :=
  first_match_wins [stdoutH, interceptH, calcH] (COp.add 2 3) (Val.vInt 42) 1
    (by decide) rfl
    (by
      intro j hj
      have hj0 : j = 0 := by omega
      subst hj0
      rfl)

/-- C3: flattening — pushing a chain (`VecHandler`) into a chain appends its
handlers one by one in order (a single flat sequence, never a
chain-of-chains), so `chain().handle(chain_of([A,B])).handle(C)` is the very
same flat chain as `chain().handle(A).handle(B).handle(C)` and dispatches
identically (same queried handlers in the same order, same acceptance, same
response) for every Op. -/
theorem chain_flattening {α : Type} (A B C0 : PHandler α)
    (c0 : VecHandler α) (hs : List (PHandler α)) :
    c0.pushAll hs = hs.foldl VecHandler.push c0 ∧
    ((beginChain α).pushAll [A, B]).push C0
      = (((beginChain α).push A).push B).push C0 ∧
    ∀ op, dispatch (((beginChain α).pushAll [A, B]).push C0) op
        = dispatch ((((beginChain α).push A).push B).push C0) op := by
  refine ⟨?_, rfl, fun _ => rfl⟩
  induction hs generalizing c0 with
  | nil => simp [VecHandler.pushAll]
  | cons h t ih =>
      have : c0.pushAll (h :: t) = (c0.push h).pushAll t := by
        simp [VecHandler.pushAll, VecHandler.push]
      rw [this, ih]
      rfl

/-- C6: type-safety round trip on the Reply cell — filling a fresh Reply and
taking with the matching type name returns the very same value unchanged
(exhausting the cell); taking with a mismatched type name fails with
`TypeMismatch` whose diagnostic message contains both the expected and the
actual type name. -/
theorem reply_type_safety_round_trip (v : Val) (T : String) :
    Reply.new.fill v = .ok (.filled v) ∧
    (Reply.filled v).take v.tyName = .ok (v, .taken) ∧
    (T ≠ v.tyName →
      (Reply.filled v).take T = .error (.typeMismatch T v.tyName) ∧
      ∃ pre mid, (ReplyError.typeMismatch T v.tyName).message
        = pre ++ T ++ mid ++ v.tyName) := by
  refine ⟨rfl, ?_, ?_⟩
  · simp [Reply.take]
  · intro hne
    refine ⟨?_, "type mismatch in Reply::take: expected ", ", got ", rfl⟩
    simp [Reply.take, Ne.symm hne]

/-- C6 witness: mirroring `examples/test_error_messages.rs` — a handler
responds with the string "42" where an `i32` is expected; the round trip with
the string's own type succeeds unchanged, and taking at `i32` fails with a
diagnostic naming `i32` and `alloc::string::String`. -/
theorem reply_type_safety_round_trip_witness :
    Reply.new.fill (Val.vStr "42") = .ok (.filled (Val.vStr "42")) ∧
    (Reply.filled (Val.vStr "42")).take (Val.vStr "42").tyName
      = .ok (Val.vStr "42", .taken) ∧
    ((Reply.filled (Val.vStr "42")).take "i32"
        = .error (.typeMismatch "i32" (Val.vStr "42").tyName) ∧
      ∃ pre mid, (ReplyError.typeMismatch "i32" (Val.vStr "42").tyName).message
        = pre ++ "i32" ++ mid ++ (Val.vStr "42").tyName) :=
  ⟨(reply_type_safety_round_trip (Val.vStr "42") "i32").1,
   (reply_type_safety_round_trip (Val.vStr "42") "i32").2.1,
   (reply_type_safety_round_trip (Val.vStr "42") "i32").2.2 (by decide)⟩

/-- C7: the Reply cell is write-once — whenever a fill succeeds, the cell is
exactly the filled cell holding that value, and any second fill fails with
`DoubleFill` instead of silently overwriting the stored value. -/
theorem reply_write_once (r r' : Reply) (v v' : Val)
    (h : r.fill v = .ok r') :
    r' = .filled v ∧ r'.fill v' = .error .doubleFill := by
  cases r with
  | empty =>
      simp only [Reply.fill, Except.ok.injEq] at h
      subst h
      exact ⟨rfl, rfl⟩
  | filled w => simp [Reply.fill] at h
  | taken => simp [Reply.fill] at h

/-- C7 witness: filling a fresh Reply with 100 succeeds, and filling it again
with 200 fails with `DoubleFill` (mirroring the double-fill check in
`test_one_shot_guarantee` of `tests/algebraic_laws.rs`). -/
theorem reply_write_once_witness :
    Reply.filled (Val.vInt 100) = Reply.filled (Val.vInt 100) ∧
    (Reply.filled (Val.vInt 100)).fill (Val.vInt 200)
      = .error ReplyError.doubleFill :=
  reply_write_once Reply.new (Reply.filled (Val.vInt 100))
    (Val.vInt 100) (Val.vInt 200) rfl

/-- Helper: one engine step at a `perform` node when dispatch accepts and the
response type matches the call site. -/
theorem runCore_perform_accept {α R : Type} (c : VecHandler α) (op : α)
    (expected : String) (k : Val → Effectful α R) (v : Val)
    (hd : (dispatch c op).1 = some v) (hty : v.tyName = expected) :
    runCore c (.perform op expected k)
      = ((runCore c (k v)).1,
         ⟨op :: (runCore c (k v)).2.attempts,
          ((dispatch c op).2.map (fun i => (i, op))) ++ (runCore c (k v)).2.queries,
          (runCore c (k v)).2.iters + 1⟩) := by
  simp only [runCore, hd, Effect.new, Reply.new, Reply.fill, Reply.take, hty]
  simp

/-- Helper: one engine step at a `perform` node when no handler accepts. -/
theorem runCore_perform_unhandled {α R : Type} (c : VecHandler α) (op : α)
    (expected : String) (k : Val → Effectful α R)
    (hd : (dispatch c op).1 = none) :
    runCore c (.perform op expected k)
      = (.unhandledOp op, ⟨[op], (dispatch c op).2.map (fun i => (i, op)), 1⟩) := by
  simp only [runCore, hd]

/-- Helper: one engine step at a `perform` node when dispatch accepts but the
response type does not match the call site: a fatal type mismatch. -/
theorem runCore_perform_mismatch {α R : Type} (c : VecHandler α) (op : α)
    (expected : String) (k : Val → Effectful α R) (v : Val)
    (hd : (dispatch c op).1 = some v) (hty : v.tyName ≠ expected) :
    runCore c (.perform op expected k)
      = (.fatal (.typeMismatch expected v.tyName),
         ⟨[op], (dispatch c op).2.map (fun i => (i, op)), 1⟩) := by
  simp only [runCore, hd, Effect.new, Reply.new, Reply.fill, Reply.take,
    if_neg hty]

/-- Helper: dispatch over the singleton chain of a totalized handler accepts
every op with the handler's response, querying exactly handler 0. -/
theorem dispatch_totalize {α : Type} (h : α → Val) (op : α) :
    dispatch [totalize h] op = (some (h op), [0]) := rfl

/-- C1: exactly-once dispatch — running a computation with a (totalized)
handler that accepts every operation, if the run completes, the handler is
queried (and accepts) exactly once per operation the computation performs,
in program order; each loop iteration dispatches exactly one Op, the
attempted ops are exactly the performed ops with no repetition of any
dispatch event, and the loop iteration count equals the number of performed
operations. -/
theorem exactly_once_dispatch {α R : Type} (h : α → Val)
    (m : Effectful α R) (r : R)
    (hok : (runCore [totalize h] m).1 = .ok r) :
    (runCore [totalize h] m).2.queries
      = (denoteOps h m).map (fun op => (0, op)) ∧
    (runCore [totalize h] m).2.attempts = denoteOps h m ∧
    (runCore [totalize h] m).2.iters = (denoteOps h m).length := by
  induction m with
  | completed r' => simp [runCore, denoteOps]
  | perform op expected k ih =>
      by_cases hty : (h op).tyName = expected
      · have hstep := runCore_perform_accept [totalize h] op expected k (h op)
          (by rw [dispatch_totalize]) hty
        rw [hstep] at hok ⊢
        obtain ⟨hq, ha, hi⟩ := ih (h op) hok
        refine ⟨?_, ?_, ?_⟩
        · simp [denoteOps, dispatch_totalize, hq]
        · simp [denoteOps, ha]
        · simp [denoteOps, hi]
      · have hstep := runCore_perform_mismatch [totalize h] op expected k (h op)
          (by rw [dispatch_totalize]) hty
        rw [hstep] at hok
        exact absurd hok (by simp)

/-- C1 witness: the two-operation computation `progPrintAdd` run with the
total `consoleTotal` handler queries handler 0 exactly twice, once per
performed op in program order, with two loop iterations. -/
theorem exactly_once_dispatch_witness :
    (runCore [totalize consoleTotal] progPrintAdd).2.queries
      = (denoteOps consoleTotal progPrintAdd).map (fun op => (0, op)) ∧
    (runCore [totalize consoleTotal] progPrintAdd).2.attempts
      = denoteOps consoleTotal progPrintAdd ∧
    (runCore [totalize consoleTotal] progPrintAdd).2.iters
      = (denoteOps consoleTotal progPrintAdd).length :=
  exactly_once_dispatch consoleTotal progPrintAdd 5 (by decide)

/-- C5: sequencing preserves the count and order of effects — if `m` runs to
completion with result `r` under a chain, then `m.bind f` has the same
outcome as continuing with `f r`, its attempted ops are exactly `m`'s
followed by `f r`'s (no duplication, skip, or reorder of any already-issued
effect), its handler query events concatenate in the same way, and its loop
iteration count is the sum. -/
theorem bind_preserves_effects {α R S : Type} (c : VecHandler α)
    (m : Effectful α R) (f : R → Effectful α S) (r : R)
    (hok : (runCore c m).1 = .ok r) :
    (runCore c (m.bind f)).1 = (runCore c (f r)).1 ∧
    (runCore c (m.bind f)).2.attempts
      = (runCore c m).2.attempts ++ (runCore c (f r)).2.attempts ∧
    (runCore c (m.bind f)).2.queries
      = (runCore c m).2.queries ++ (runCore c (f r)).2.queries ∧
    (runCore c (m.bind f)).2.iters
      = (runCore c m).2.iters + (runCore c (f r)).2.iters := by
  induction m with
  | completed r' =>
      have hr : r' = r := by simpa [runCore] using hok
      subst hr
      simp [Effectful.bind, runCore]
  | perform op expected k ih =>
      cases hd : (dispatch c op).1 with
      | none =>
          have hstep := runCore_perform_unhandled c op expected k hd
          rw [hstep] at hok
          exact absurd hok (by simp)
      | some v =>
          by_cases hty : v.tyName = expected
          · have hstep := runCore_perform_accept c op expected k v hd hty
            have hstep' := runCore_perform_accept c op expected
              (fun w => (k w).bind f) v hd hty
            have hbind : (Effectful.perform op expected k).bind f
                = .perform op expected (fun w => (k w).bind f) := rfl
            rw [hstep] at hok
            obtain ⟨h1, h2, h3, h4⟩ := ih v hok
            refine ⟨?_, ?_, ?_, ?_⟩
            · rw [hbind, hstep']
              simpa using h1
            · rw [hbind, hstep', hstep]
              simp [h2]
            · rw [hbind, hstep', hstep]
              simp [h3]
            · rw [hbind, hstep', hstep]
              simp [h4]
              try omega
          · have hstep := runCore_perform_mismatch c op expected k v hd hty
            rw [hstep] at hok
            exact absurd hok (by simp)

/-- C5 witness: `progPrintAdd.bind contAddSelf` under the chain
`[stdoutH, calcH]` runs print, add 2 3 (result 5), then add 5 5, with traces
concatenating and iteration counts adding. -/
theorem bind_preserves_effects_witness :
    (runCore [stdoutH, calcH] (progPrintAdd.bind contAddSelf)).1
      = (runCore [stdoutH, calcH] (contAddSelf 5)).1 ∧
    (runCore [stdoutH, calcH] (progPrintAdd.bind contAddSelf)).2.attempts
      = (runCore [stdoutH, calcH] progPrintAdd).2.attempts
        ++ (runCore [stdoutH, calcH] (contAddSelf 5)).2.attempts ∧
    (runCore [stdoutH, calcH] (progPrintAdd.bind contAddSelf)).2.queries
      = (runCore [stdoutH, calcH] progPrintAdd).2.queries
        ++ (runCore [stdoutH, calcH] (contAddSelf 5)).2.queries ∧
    (runCore [stdoutH, calcH] (progPrintAdd.bind contAddSelf)).2.iters
      = (runCore [stdoutH, calcH] progPrintAdd).2.iters
        + (runCore [stdoutH, calcH] (contAddSelf 5)).2.iters :=
  bind_preserves_effects [stdoutH, calcH] progPrintAdd contAddSelf 5 (by decide)

/-- Helper: when the engine stops with `unhandledOp op`, that `op` is genuinely
unaccepted by the chain, it is the last attempted op, and every earlier
attempted op was accepted by some handler. -/
theorem runCore_unhandled_trace {α R : Type} (c : VecHandler α)
    (m : Effectful α R) (op : α)
    (h : (runCore c m).1 = .unhandledOp op) :
    (dispatch c op).1 = none ∧
    ∃ pre, (runCore c m).2.attempts = pre ++ [op] ∧
      ∀ op' ∈ pre, ((dispatch c op').1).isSome := by
  induction m with
  | completed r => exact absurd h (by simp [runCore])
  | perform op0 expected k ih =>
      cases hd : (dispatch c op0).1 with
      | none =>
          have hstep := runCore_perform_unhandled c op0 expected k hd
          rw [hstep] at h ⊢
          have hop : op0 = op := by simpa using h
          subst hop
          exact ⟨hd, [], by simp⟩
      | some v =>
          by_cases hty : v.tyName = expected
          · have hstep := runCore_perform_accept c op0 expected k v hd hty
            rw [hstep] at h ⊢
            obtain ⟨hnone, pre, hpre, haccepted⟩ := ih v h
            refine ⟨hnone, op0 :: pre, ?_, ?_⟩
            · simp [hpre]
            · intro op' hop'
              rcases List.mem_cons.mp hop' with h0 | h0
              · subst h0
                simp [hd]
              · exact haccepted op' h0
          · have hstep := runCore_perform_mismatch c op0 expected k v hd hty
            rw [hstep] at h
            exact absurd h (by simp)

/-- C4: unhandled surfacing — `run_checked` returns the error value
`Unhandled(op)` exactly when the engine stopped at an operation no handler
accepted; in that case `op` is the exact operation value that was performed
at the failing step (the last attempted op, every earlier one having been
accepted), not a generic error; and the `Ok` result is preserved otherwise,
agreeing with `run`. -/
theorem unhandled_surfacing {α R : Type} (c : VecHandler α)
    (m : Effectful α R) (op : α) (r : R) :
    (runChecked c m = .ok (.error ⟨op⟩) ↔ (runCore c m).1 = .unhandledOp op) ∧
    (runChecked c m = .ok (.error ⟨op⟩) →
      (dispatch c op).1 = none ∧
      ∃ pre, (runCore c m).2.attempts = pre ++ [op] ∧
        ∀ op' ∈ pre, ((dispatch c op').1).isSome) ∧
    (runChecked c m = .ok (.ok r) ↔ run c m = .ok r) := by
  have h1 : runChecked c m = .ok (.error ⟨op⟩) ↔ (runCore c m).1 = .unhandledOp op := by
    cases hco : (runCore c m).1 <;> simp [runChecked, hco]
  refine ⟨h1, ?_, ?_⟩
  · intro hc
    exact runCore_unhandled_trace c m op (h1.mp hc)
  · cases hco : (runCore c m).1 <;> simp [runChecked, run, hco]

/-- C4 witness: the chain `[stdoutH]` is missing a math handler (mirroring
example 2 of `examples/partial_handlers.rs`); `run_checked` on
`progPrintAdd` surfaces `Unhandled(Add(2,3))`, the exact performed op. -/
theorem unhandled_surfacing_witness :
    (runChecked [stdoutH] progPrintAdd = .ok (.error ⟨COp.add 2 3⟩)
      ↔ (runCore [stdoutH] progPrintAdd).1 = .unhandledOp (COp.add 2 3)) ∧
    ((dispatch [stdoutH] (COp.add 2 3)).1 = none ∧
      ∃ pre, (runCore [stdoutH] progPrintAdd).2.attempts = pre ++ [COp.add 2 3] ∧
        ∀ op' ∈ pre, ((dispatch [stdoutH] op').1).isSome) ∧
    (runChecked [stdoutH] progPrintAdd = .ok (.ok 0)
      ↔ run [stdoutH] progPrintAdd = .ok 0) :=
  ⟨(unhandled_surfacing [stdoutH] progPrintAdd (COp.add 2 3) 0).1,
   (unhandled_surfacing [stdoutH] progPrintAdd (COp.add 2 3) 0).2.1 (by rfl),
   (unhandled_surfacing [stdoutH] progPrintAdd (COp.add 2 3) 0).2.2⟩

/-- C8: error-severity split of the two entry points — `run` succeeds exactly
when `run_checked` returns `Ok`; `run` panics with an unhandled-op panic
exactly when `run_checked` converts it into the returned `Unhandled(op)`
error value; and `run_checked` itself panics exactly when `run` panics with a
Reply-protocol violation (type mismatch, double fill/take, not filled) —
those remain fatal even under `run_checked`. -/
theorem error_severity_split {α R : Type} (c : VecHandler α)
    (m : Effectful α R) (r : R) (u : UnhandledOp α) (p : Panic α) :
    (run c m = .ok r ↔ runChecked c m = .ok (.ok r)) ∧
    (run c m = .error (.unhandledPanic u.op) ↔ runChecked c m = .ok (.error u)) ∧
    (runChecked c m = .error p ↔
      (run c m = .error p ∧ ∃ e, p = .replyPanic e)) := by
  obtain ⟨uop⟩ := u
  refine ⟨?_, ?_, ?_⟩
  · cases hco : (runCore c m).1 <;> simp [run, runChecked, hco]
  · cases hco : (runCore c m).1 <;> simp [run, runChecked, hco]
  · cases hco : (runCore c m).1 with
    | ok r' =>
        constructor
        · intro h
          simp [runChecked, hco] at h
        · rintro ⟨h, _⟩
          simp [run, hco] at h
    | unhandledOp o =>
        constructor
        · intro h
          simp [runChecked, hco] at h
        · rintro ⟨h, e, hpe⟩
          subst hpe
          simp [run, hco] at h
    | fatal e0 =>
        constructor
        · intro h
          simp only [runChecked, hco] at h
          have hp : p = .replyPanic e0 := by
            simpa using h.symm
          subst hp
          exact ⟨by simp [run, hco], e0, rfl⟩
        · rintro ⟨h, e, hpe⟩
          subst hpe
          simp only [run, hco] at h
          have : e0 = e := by simpa using h
          subst this
          simp [runChecked, hco]

end Algae

namespace AlgaeMacros

/-- C9: the `#[effectful]` attribute macro ignores its attribute arguments —
any two argument streams (e.g. `root = CustomOp` versus nothing) produce the
same output item — and always rewrites the return type `T` to
`algae::Effectful<T, Op>` with the root operation type literally named `Op`
(`()` for a missing return type), wrapping the body in an
`algae::Effectful::new(#[coroutine] ...)` closure taking
`Option<algae::Reply>`. -/
theorem effectful_ignores_attr_args (args args' : List String) (f : RustFn)
    (T : String) :
    effectfulTransform args f = effectfulTransform args' f ∧
    effectfulTransform ["root", "=", "CustomOp"] f = effectfulTransform [] f ∧
    (f.ret = some T →
      (effectfulTransform args f).ret
        = some ("algae::Effectful<" ++ T ++ ", Op>")) ∧
    (f.ret = none →
      (effectfulTransform args f).ret = some "algae::Effectful<(), Op>") ∧
    (effectfulTransform args f).body
      = "algae::Effectful::new(#[coroutine] move |mut _reply: Option<algae::Reply>| \x7b "
        ++ f.body ++ " \x7d)" ∧
    (effectfulTransform args f).name = f.name := by
  refine ⟨rfl, rfl, ?_, ?_, rfl, rfl⟩
  · intro h
    simp [effectfulTransform, h]
  · intro h
    simp [effectfulTransform, h]

/-- C9 witness: `greet_and_calculate` from
`examples/test_custom_root_effectful.rs`, declared `-> String` with the
attribute arguments `root = CustomOp`: the arguments have no effect and the
generated return type names `Op`, not `CustomOp`. -/
theorem effectful_ignores_attr_args_witness :
    effectfulTransform ["root", "=", "CustomOp"]
        ⟨"greet_and_calculate", some "String", "BODY"⟩
      = effectfulTransform []
        ⟨"greet_and_calculate", some "String", "BODY"⟩ ∧
    effectfulTransform ["root", "=", "CustomOp"]
        ⟨"greet_and_calculate", some "String", "BODY"⟩
      = effectfulTransform []
        ⟨"greet_and_calculate", some "String", "BODY"⟩ ∧
    (effectfulTransform ["root", "=", "CustomOp"]
        ⟨"greet_and_calculate", some "String", "BODY"⟩).ret
      = some ("algae::Effectful<" ++ "String" ++ ", Op>") ∧
    (effectfulTransform ["root", "=", "CustomOp"]
        ⟨"greet_and_calculate", some "String", "BODY"⟩).body
      = "algae::Effectful::new(#[coroutine] move |mut _reply: Option<algae::Reply>| \x7b "
        ++ "BODY" ++ " \x7d)" ∧
    (effectfulTransform ["root", "=", "CustomOp"]
        ⟨"greet_and_calculate", some "String", "BODY"⟩).name
      = "greet_and_calculate" :=
  ⟨(effectful_ignores_attr_args ["root", "=", "CustomOp"] []
      ⟨"greet_and_calculate", some "String", "BODY"⟩ "String").1,
   (effectful_ignores_attr_args ["root", "=", "CustomOp"] []
      ⟨"greet_and_calculate", some "String", "BODY"⟩ "String").2.1,
   (effectful_ignores_attr_args ["root", "=", "CustomOp"] []
      ⟨"greet_and_calculate", some "String", "BODY"⟩ "String").2.2.1 rfl,
   (effectful_ignores_attr_args ["root", "=", "CustomOp"] []
      ⟨"greet_and_calculate", some "String", "BODY"⟩ "String").2.2.2.2.1,
   (effectful_ignores_attr_args ["root", "=", "CustomOp"] []
      ⟨"greet_and_calculate", some "String", "BODY"⟩ "String").2.2.2.2.2⟩

/-- Helper: equation of `insertLine` when the head key is the inserted
family. -/
theorem insertLine_eq_same (f : String) (v : VariantInfo)
    (vs : List VariantInfo) (rest : List (String × List VariantInfo)) :
    insertLine f v ((f, vs) :: rest) = (f, vs ++ [v]) :: rest := by
  simp [insertLine]

/-- Helper: equation of `insertLine` when the inserted family sorts before
the head key. -/
theorem insertLine_eq_lt (fam f : String) (v : VariantInfo)
    (vs : List VariantInfo) (rest : List (String × List VariantInfo))
    (h1 : fam ≠ f) (h2 : fam < f) :
    insertLine fam v ((f, vs) :: rest) = (fam, [v]) :: (f, vs) :: rest := by
  simp [insertLine, h1, h2]

/-- Helper: equation of `insertLine` when the inserted family sorts after the
head key. -/
theorem insertLine_eq_gt (fam f : String) (v : VariantInfo)
    (vs : List VariantInfo) (rest : List (String × List VariantInfo))
    (h1 : fam ≠ f) (h2 : ¬fam < f) :
    insertLine fam v ((f, vs) :: rest) = (f, vs) :: insertLine fam v rest := by
  simp [insertLine, h1, h2]

/-- Helper: membership in the keys of the association list after one
insertion. -/
theorem insertLine_mem_keys (fam g : String) (v : VariantInfo) :
    ∀ acc : List (String × List VariantInfo),
      (g ∈ (insertLine fam v acc).map Prod.fst ↔
        (g = fam ∨ g ∈ acc.map Prod.fst))
  | [] => by simp [insertLine]
  | (f, vs) :: rest => by
      by_cases h1 : fam = f
      · subst h1
        rw [insertLine_eq_same]
        simp only [List.map_cons, List.mem_cons]
        tauto
      · by_cases h2 : fam < f
        · rw [insertLine_eq_lt fam f v vs rest h1 h2]
          simp only [List.map_cons, List.mem_cons]
        · rw [insertLine_eq_gt fam f v vs rest h1 h2]
          simp only [List.map_cons, List.mem_cons]
          have ih := insertLine_mem_keys fam g v rest
          tauto

/-- Helper: insertion preserves strict sortedness of the keys. -/
theorem insertLine_sorted (fam : String) (v : VariantInfo) :
    ∀ acc : List (String × List VariantInfo),
      ((acc.map Prod.fst).Pairwise (· < ·)) →
      (((insertLine fam v acc).map Prod.fst).Pairwise (· < ·))
  | [] => by simp [insertLine]
  | (f, vs) :: rest => by
      intro hs
      rw [List.map_cons, List.pairwise_cons] at hs
      obtain ⟨hf, hrest⟩ := hs
      by_cases h1 : fam = f
      · subst h1
        simp only [insertLine, if_pos rfl, List.map_cons]
        exact List.Pairwise.cons hf hrest
      · by_cases h2 : fam < f
        · simp only [insertLine, if_neg h1, if_pos h2, List.map_cons]
          refine List.Pairwise.cons ?_ (List.Pairwise.cons hf hrest)
          intro g hg
          rcases List.mem_cons.mp hg with h | h
          · rw [h]
            exact h2
          · exact lt_trans h2 (hf g h)
        · have hf_lt : f < fam := by
            rcases lt_trichotomy fam f with h | h | h
            · exact absurd h h2
            · exact absurd h h1
            · exact h
          simp only [insertLine, if_neg h1, if_neg h2, List.map_cons]
          refine List.Pairwise.cons ?_ (insertLine_sorted fam v rest hrest)
          intro g hg
          rcases (insertLine_mem_keys fam g v rest).mp hg with h | h
          · rw [h]
            exact hf_lt
          · exact hf g h

/-- Helper: lookup misses when the key is not present. -/
theorem lookupFam_eq_none_of_not_mem (g : String) :
    ∀ acc : List (String × List VariantInfo),
      g ∉ acc.map Prod.fst → lookupFam acc g = none
  | [] => fun _ => rfl
  | (f, vs) :: rest => by
      intro h
      rw [List.map_cons, List.mem_cons] at h
      push_neg at h
      obtain ⟨h1, h2⟩ := h
      simp [lookupFam, h1, lookupFam_eq_none_of_not_mem g rest h2]

/-- Helper: successful lookup implies key membership. -/
theorem mem_keys_of_lookupFam (g : String) (vs : List VariantInfo) :
    ∀ acc : List (String × List VariantInfo),
      lookupFam acc g = some vs → g ∈ acc.map Prod.fst
  | [] => by simp [lookupFam]
  | (f, ws) :: rest => by
      by_cases h : g = f
      · subst h
        intro _
        simp
      · intro hl
        simp only [lookupFam, if_neg h] at hl
        simp only [List.map_cons, List.mem_cons]
        exact Or.inr (mem_keys_of_lookupFam g vs rest hl)

/-- Helper: lookup of the inserted key after insertion (keys sorted): the
variant is appended to the existing vector, or starts a fresh one. -/
theorem lookupFam_insertLine_self (fam : String) (v : VariantInfo) :
    ∀ acc : List (String × List VariantInfo),
      ((acc.map Prod.fst).Pairwise (· < ·)) →
      lookupFam (insertLine fam v acc) fam
        = some ((lookupFam acc fam).getD [] ++ [v])
  | [] => by
      intro _
      simp [insertLine, lookupFam]
  | (f, vs) :: rest => by
      intro hs
      rw [List.map_cons, List.pairwise_cons] at hs
      obtain ⟨hf, hrest⟩ := hs
      by_cases h1 : fam = f
      · subst h1
        simp [insertLine, lookupFam]
      · by_cases h2 : fam < f
        · have hnotrest : fam ∉ rest.map Prod.fst := fun hmem =>
            absurd (lt_trans h2 (hf fam hmem)) (lt_irrefl fam)
          have hnone := lookupFam_eq_none_of_not_mem fam rest hnotrest
          rw [insertLine_eq_lt fam f v vs rest h1 h2]
          simp [lookupFam, h1, hnone]
        · rw [insertLine_eq_gt fam f v vs rest h1 h2]
          simp only [lookupFam, if_neg h1]
          exact lookupFam_insertLine_self fam v rest hrest

/-- Helper: lookup of a different key is unchanged by insertion. -/
theorem lookupFam_insertLine_other (fam g : String) (v : VariantInfo)
    (hne : g ≠ fam) :
    ∀ acc : List (String × List VariantInfo),
      lookupFam (insertLine fam v acc) g = lookupFam acc g
  | [] => by simp [insertLine, lookupFam, hne]
  | (f, vs) :: rest => by
      by_cases h1 : fam = f
      · subst h1
        simp [insertLine, lookupFam, hne]
      · by_cases h2 : fam < f
        · simp [insertLine, h1, h2, lookupFam, hne]
        · simp only [insertLine, if_neg h1, if_neg h2, lookupFam]
          by_cases h3 : g = f
          · simp [h3]
          · simp [h3, lookupFam_insertLine_other fam g v hne rest]

/-- Helper: appending one line extends the declaration-order variants of its
own family by one and leaves every other family unchanged. -/
theorem declVariants_append (lines : List OpLine) (l : OpLine) (fam : String) :
    declVariants (lines ++ [l]) fam
      = declVariants lines fam
        ++ (if l.family = fam then [⟨l.variant, l.payload⟩] else []) := by
  by_cases h : l.family = fam <;>
    simp [declVariants, List.filter_append, h]

/-- Helper: a family has declaration-order variants exactly when it occurs in
the declared lines. -/
theorem declVariants_ne_nil_iff (lines : List OpLine) (g : String) :
    declVariants lines g ≠ [] ↔ g ∈ declFamilies lines := by
  induction lines with
  | nil => simp [declVariants, declFamilies]
  | cons l ls ih =>
      by_cases h : l.family = g <;>
        simp [declVariants, declFamilies, List.filter_cons, h, ← ih,
          declVariants] <;> tauto

/-- Helper: invariant of the `effect!` grouping fold — starting from a
sorted accumulator that correctly records the variants of the already
processed lines, the fold keeps the keys strictly sorted and records, for
every family, exactly its declaration-order variants. -/
theorem groupFold_invariant :
    ∀ (lines done : List OpLine) (acc : List (String × List VariantInfo)),
      ((acc.map Prod.fst).Pairwise (· < ·)) →
      (∀ g, lookupFam acc g
          = if declVariants done g = [] then none
            else some (declVariants done g)) →
      (((lines.foldl (fun a l => insertLine l.family ⟨l.variant, l.payload⟩ a)
          acc).map Prod.fst).Pairwise (· < ·)) ∧
      (∀ g, lookupFam
          (lines.foldl (fun a l => insertLine l.family ⟨l.variant, l.payload⟩ a)
            acc) g
          = if declVariants (done ++ lines) g = [] then none
            else some (declVariants (done ++ lines) g))
  | [], done, acc, hs, hl => by
      constructor
      · simpa using hs
      · simpa using hl
  | l :: ls, done, acc, hs, hl => by
      have hs' := insertLine_sorted l.family ⟨l.variant, l.payload⟩ acc hs
      have hl' : ∀ g,
          lookupFam (insertLine l.family ⟨l.variant, l.payload⟩ acc) g
            = if declVariants (done ++ [l]) g = [] then none
              else some (declVariants (done ++ [l]) g) := by
        intro g
        by_cases hg : g = l.family
        · subst hg
          rw [lookupFam_insertLine_self l.family ⟨l.variant, l.payload⟩ acc hs,
            hl l.family, declVariants_append]
          by_cases h0 : declVariants done l.family = [] <;> simp [h0]
        · have hfg : l.family ≠ g := fun h => hg h.symm
          rw [lookupFam_insertLine_other l.family g ⟨l.variant, l.payload⟩ hg acc,
            hl g, declVariants_append]
          simp [hfg]
      have ih := groupFold_invariant ls (done ++ [l])
        (insertLine l.family ⟨l.variant, l.payload⟩ acc) hs' hl'
      constructor
      · simpa using ih.1
      · intro g
        have := ih.2 g
        simpa [List.append_assoc] using this

/-- C10: the `effect!` macro groups operation lines into families in
`BTreeMap` iteration order — strictly alphabetical by family name, not
declaration order — while each family's grouped variants keep declaration
order; consequently the generated root-enum `Default` selects the first
declared variant of the alphabetically first declared family, marking a
`Default::default()` payload exactly when that variant has a payload, and
each family enum's `Default` is its own first declared variant. -/
theorem effect_groups_alphabetically (lines : List OpLine) (fam : String) :
    ((groupFamilies lines).map Prod.fst).Pairwise (· < ·) ∧
    (∀ g, lookupFam (groupFamilies lines) g
        = if declVariants lines g = [] then none
          else some (declVariants lines g)) ∧
    (lines ≠ [] → ∃ fam0 vs0 v0,
        (groupFamilies lines).head? = some (fam0, vs0) ∧
        fam0 ∈ declFamilies lines ∧
        (∀ g ∈ declFamilies lines, fam0 ≤ g) ∧
        vs0 = declVariants lines fam0 ∧
        vs0.head? = some v0 ∧
        rootDefault lines = some ⟨fam0, v0.variant, v0.payload.isSome⟩) ∧
    (fam ∈ declFamilies lines → ∃ v0,
        (declVariants lines fam).head? = some v0 ∧
        familyDefault lines fam = some ⟨fam, v0.variant, v0.payload.isSome⟩) := by
  obtain ⟨hsorted, hlook⟩ := groupFold_invariant lines [] []
    (by simp) (by intro g; simp [lookupFam, declVariants])
  have hs2 : ((groupFamilies lines).map Prod.fst).Pairwise (· < ·) := by
    rw [groupFamilies]
    exact hsorted
  have hl2 : ∀ g, lookupFam (groupFamilies lines) g
      = if declVariants lines g = [] then none
        else some (declVariants lines g) := by
    intro g
    rw [groupFamilies]
    simpa using hlook g
  refine ⟨hs2, hl2, ?_, ?_⟩
  · intro hne
    obtain ⟨l0, ls0, hlines⟩ := List.exists_cons_of_ne_nil hne
    have hl0fam : l0.family ∈ declFamilies lines := by
      rw [hlines]
      simp [declFamilies]
    have hdv0 : declVariants lines l0.family ≠ [] :=
      (declVariants_ne_nil_iff lines l0.family).mpr hl0fam
    have hgne : groupFamilies lines ≠ [] := by
      intro h0
      have hc := hl2 l0.family
      rw [h0, if_neg hdv0] at hc
      exact absurd hc (by simp [lookupFam])
    obtain ⟨p0, t0, hg⟩ := List.exists_cons_of_ne_nil hgne
    obtain ⟨fam0, vs0⟩ := p0
    have hlk : lookupFam (groupFamilies lines) fam0 = some vs0 := by
      rw [hg]
      simp [lookupFam]
    have hc := hl2 fam0
    rw [hlk] at hc
    by_cases h0 : declVariants lines fam0 = []
    · rw [if_pos h0] at hc
      exact absurd hc (by simp)
    · rw [if_neg h0] at hc
      have hvs : vs0 = declVariants lines fam0 := by
        exact Option.some.inj hc
      have hmem0 : fam0 ∈ declFamilies lines :=
        (declVariants_ne_nil_iff lines fam0).mp h0
      have hleast : ∀ g ∈ declFamilies lines, fam0 ≤ g := by
        intro g hgmem
        have hdvg : declVariants lines g ≠ [] :=
          (declVariants_ne_nil_iff lines g).mpr hgmem
        have hlkg : lookupFam (groupFamilies lines) g
            = some (declVariants lines g) := by
          rw [hl2 g, if_neg hdvg]
        have hkey : g ∈ (groupFamilies lines).map Prod.fst :=
          mem_keys_of_lookupFam g (declVariants lines g)
            (groupFamilies lines) hlkg
        have hs3 := hs2
        rw [hg, List.map_cons, List.pairwise_cons] at hs3
        rw [hg, List.map_cons] at hkey
        rcases List.mem_cons.mp hkey with h | h
        · rw [h]
        · exact le_of_lt (hs3.1 g h)
      have hvs_ne : vs0 ≠ [] := by
        rw [hvs]
        exact h0
      obtain ⟨v0, vrest, hv0⟩ := List.exists_cons_of_ne_nil hvs_ne
      refine ⟨fam0, vs0, v0, ?_, hmem0, hleast, hvs, ?_, ?_⟩
      · rw [hg]
        rfl
      · rw [hv0]
        rfl
      · simp [rootDefault, hg, hv0]
  · intro hfmem
    have hdvf : declVariants lines fam ≠ [] :=
      (declVariants_ne_nil_iff lines fam).mpr hfmem
    obtain ⟨v0, vrest, hv0⟩ := List.exists_cons_of_ne_nil hdvf
    refine ⟨v0, ?_, ?_⟩
    · rw [hv0]
      rfl
    · have hlkf : lookupFam (groupFamilies lines) fam
          = some (declVariants lines fam) := by
        rw [hl2 fam, if_neg hdvf]
      simp [familyDefault, hlkf, hv0]

/-- C10 witness: the declaration
`Math::Add((i32,i32)) -> i32; Console::Print(String) -> ();
Console::ReadLine -> String` declares `Math` first, but grouping is
alphabetical: `Console` comes first, the root `Default` is
`Console::Print(Default::default())`, and `Math`'s own `Default` is its first
declared variant `Add`. -/
theorem effect_groups_alphabetically_witness :
    (((groupFamilies
        [⟨"Math", "Add", some "(i32, i32)", "i32"⟩,
         ⟨"Console", "Print", some "String", "()"⟩,
         ⟨"Console", "ReadLine", none, "String"⟩]).map Prod.fst).Pairwise
          (· < ·)) ∧
    (∀ g, lookupFam (groupFamilies
        [⟨"Math", "Add", some "(i32, i32)", "i32"⟩,
         ⟨"Console", "Print", some "String", "()"⟩,
         ⟨"Console", "ReadLine", none, "String"⟩]) g
        = if declVariants
            [⟨"Math", "Add", some "(i32, i32)", "i32"⟩,
             ⟨"Console", "Print", some "String", "()"⟩,
             ⟨"Console", "ReadLine", none, "String"⟩] g = [] then none
          else some (declVariants
            [⟨"Math", "Add", some "(i32, i32)", "i32"⟩,
             ⟨"Console", "Print", some "String", "()"⟩,
             ⟨"Console", "ReadLine", none, "String"⟩] g)) ∧
    (∃ fam0 vs0 v0,
        (groupFamilies
          [⟨"Math", "Add", some "(i32, i32)", "i32"⟩,
           ⟨"Console", "Print", some "String", "()"⟩,
           ⟨"Console", "ReadLine", none, "String"⟩]).head? = some (fam0, vs0) ∧
        fam0 ∈ declFamilies
          [⟨"Math", "Add", some "(i32, i32)", "i32"⟩,
           ⟨"Console", "Print", some "String", "()"⟩,
           ⟨"Console", "ReadLine", none, "String"⟩] ∧
        (∀ g ∈ declFamilies
          [⟨"Math", "Add", some "(i32, i32)", "i32"⟩,
           ⟨"Console", "Print", some "String", "()"⟩,
           ⟨"Console", "ReadLine", none, "String"⟩], fam0 ≤ g) ∧
        vs0 = declVariants
          [⟨"Math", "Add", some "(i32, i32)", "i32"⟩,
           ⟨"Console", "Print", some "String", "()"⟩,
           ⟨"Console", "ReadLine", none, "String"⟩] fam0 ∧
        vs0.head? = some v0 ∧
        rootDefault
          [⟨"Math", "Add", some "(i32, i32)", "i32"⟩,
           ⟨"Console", "Print", some "String", "()"⟩,
           ⟨"Console", "ReadLine", none, "String"⟩]
          = some ⟨fam0, v0.variant, v0.payload.isSome⟩) ∧
    (∃ v0,
        (declVariants
          [⟨"Math", "Add", some "(i32, i32)", "i32"⟩,
           ⟨"Console", "Print", some "String", "()"⟩,
           ⟨"Console", "ReadLine", none, "String"⟩] "Math").head? = some v0 ∧
        familyDefault
          [⟨"Math", "Add", some "(i32, i32)", "i32"⟩,
           ⟨"Console", "Print", some "String", "()"⟩,
           ⟨"Console", "ReadLine", none, "String"⟩] "Math"
          = some ⟨"Math", v0.variant, v0.payload.isSome⟩) :=
  ⟨(effect_groups_alphabetically
      [⟨"Math", "Add", some "(i32, i32)", "i32"⟩,
       ⟨"Console", "Print", some "String", "()"⟩,
       ⟨"Console", "ReadLine", none, "String"⟩] "Math").1,
   (effect_groups_alphabetically
      [⟨"Math", "Add", some "(i32, i32)", "i32"⟩,
       ⟨"Console", "Print", some "String", "()"⟩,
       ⟨"Console", "ReadLine", none, "String"⟩] "Math").2.1,
   (effect_groups_alphabetically
      [⟨"Math", "Add", some "(i32, i32)", "i32"⟩,
       ⟨"Console", "Print", some "String", "()"⟩,
       ⟨"Console", "ReadLine", none, "String"⟩] "Math").2.2.1 (by decide),
   (effect_groups_alphabetically
      [⟨"Math", "Add", some "(i32, i32)", "i32"⟩,
       ⟨"Console", "Print", some "String", "()"⟩,
       ⟨"Console", "ReadLine", none, "String"⟩] "Math").2.2.2 (by decide)⟩

end AlgaeMacros
